import Mathlib

/-!
Shallow embedding of `src/main.py` (a geth multi-node provisioner).

Python strings are modelled as lists of Unicode code points (`Str := List Nat`).
External effects (subprocess results, RPC responses, the wall clock) are
supplied by an `Env` oracle; the provisioning flow is then a pure function of
that oracle which also returns the trace of externally visible events.
-/

/-- Python strings, as lists of code points. -/
abbrev Str := List Nat

/-- ASCII lowering: the behaviour of Python `str.lower` on ASCII code points
(the addresses and every other string handled here are ASCII). -/
def asciiLower (c : Nat) : Nat := if 65 ≤ c ∧ c ≤ 90 then c + 32 else c

/-- Python `s.replace("0x", "")` (from `build_clique_genesis`, line 84):
remove every non-overlapping, leftmost-first occurrence of the two code
points `0x` (48, 120). -/
def replace0x : List Nat → List Nat
  | 48 :: 120 :: rest => replace0x rest
  | c :: rest => c :: replace0x rest
  | [] => []

/-- Value of a hexadecimal digit code point (digits, lowercase, uppercase). -/
def hexDigitVal (c : Nat) : Option Nat :=
  if 48 ≤ c ∧ c ≤ 57 then some (c - 48)
  else if 97 ≤ c ∧ c ≤ 102 then some (c - 87)
  else if 65 ≤ c ∧ c ≤ 70 then some (c - 55)
  else none

/-- Lowercase hex digit code point of a value `v < 16`. -/
def hexDigitLower (v : Nat) : Nat := if v < 10 then 48 + v else 87 + v

/-- Decode a hex string (list of code points, two per byte) to its bytes. -/
def decodeHexPairs : List Nat → Option (List Nat)
  | [] => some []
  | [_] => none
  | c1 :: c2 :: rest =>
    (hexDigitVal c1).bind fun v1 =>
      (hexDigitVal c2).bind fun v2 =>
        (decodeHexPairs rest).map fun bs => (16 * v1 + v2) :: bs

/-- Encode bytes as a lowercase hex string (two code points per byte). -/
def encodeHexPairsLower (bs : List Nat) : List Nat :=
  (bs.map (fun b => [hexDigitLower (b / 16), hexDigitLower (b % 16)])).flatten

/-- The genesis dictionary produced by `build_clique_genesis` (lines 81-102).
The `gasLimit` field is kept as the numeric value (the source renders it with
`hex`, an injective rendering); `alloc` is the constant empty table and is
omitted. -/
structure Genesis where
  chainId : Nat
  cliquePeriod : Nat
  cliqueEpoch : Nat
  nonce : Str
  timestamp : Str
  extraData : Str
  gasLimit : Nat
  difficulty : Str
  mixhash : Str
  coinbase : Str
  deriving DecidableEq, Repr

/-- Translation of `build_clique_genesis` (src/main.py lines 81-102):
`extraData` is `"0x" + "00"*32 + concat(addr.lower().replace("0x","")) + "00"*65`. -/
def build_clique_genesis (chainId : Nat) (signer_addresses : List Str)
    (gasLimit : Nat := 8000000) : Genesis :=
  let vanity : List Nat := List.replicate 64 48
  let signers_hex :=
    (signer_addresses.map (fun addr => replace0x (addr.map asciiLower))).flatten
  let tail : List Nat := List.replicate 130 48
  let extra := 48 :: 120 :: (vanity ++ signers_hex ++ tail)
  { chainId := chainId, cliquePeriod := 1, cliqueEpoch := 30000,
    nonce := [48, 120, 48], timestamp := [48, 120, 48], extraData := extra,
    gasLimit := gasLimit, difficulty := [48, 120, 49],
    mixhash := 48 :: 120 :: List.replicate 64 48,
    coinbase := 48 :: 120 :: List.replicate 40 48 }

/-- Lowering an already-lowered ASCII code point changes nothing. -/
theorem asciiLower_idem (c : Nat) : asciiLower (asciiLower c) = asciiLower c := by
  unfold asciiLower
  split_ifs <;> omega

/-- A list without the code point `x` (120) is unchanged by `replace0x`. -/
theorem replace0x_eq_self (l : List Nat) (h : ∀ c ∈ l, c ≠ 120) :
    replace0x l = l := by
  induction l using replace0x.induct with
  | case1 rest ih => exact absurd rfl (h 120 (by simp))
  | case2 c rest hne ih =>
    simp only [replace0x]
    rw [ih (fun d hd => h d (by simp [hd]))]
  | case3 => rfl

/-- Dropping a leading `0x` with `replace0x`. -/
theorem replace0x_cons_ox (l : List Nat) :
    replace0x (48 :: 120 :: l) = replace0x l := rfl

/-- A hex digit's value is below 16 and ASCII-lowering the digit yields the
canonical lowercase digit of that value. -/
theorem hexDigitVal_lower (c v : Nat) (h : hexDigitVal c = some v) :
    asciiLower c = hexDigitLower v ∧ v < 16 := by
  unfold hexDigitVal at h
  unfold asciiLower hexDigitLower
  split_ifs at h with h1 h2 h3 <;> injection h with hv <;> subst hv <;>
    exact ⟨by split_ifs <;> omega, by omega⟩

/-- Lowercase hex digits are never the code point `x` (120). -/
theorem hexDigitLower_ne_x (v : Nat) (h : v < 16) : hexDigitLower v ≠ 120 := by
  unfold hexDigitLower
  split_ifs <;> omega

/-- Unfolding `encodeHexPairsLower` on a cons cell. -/
theorem encodeHexPairsLower_cons (b : Nat) (bs : List Nat) :
    encodeHexPairsLower (b :: bs)
      = hexDigitLower (b / 16) :: hexDigitLower (b % 16) :: encodeHexPairsLower bs := by
  simp [encodeHexPairsLower]

/-- Encoding distributes over append. -/
theorem encodeHexPairsLower_append (l1 l2 : List Nat) :
    encodeHexPairsLower (l1 ++ l2) = encodeHexPairsLower l1 ++ encodeHexPairsLower l2 := by
  simp [encodeHexPairsLower]

/-- An encoded byte string has twice the byte count in code points. -/
theorem encodeHexPairsLower_length (bs : List Nat) :
    (encodeHexPairsLower bs).length = 2 * bs.length := by
  induction bs with
  | nil => rfl
  | cons b bs ih => simp [encodeHexPairsLower] at ih ⊢; omega

/-- The lowercase hex encoding of bytes contains no `x` (120). -/
theorem encodeHexPairsLower_no_x (bs : List Nat) (hb : ∀ b ∈ bs, b < 256) :
    ∀ c ∈ encodeHexPairsLower bs, c ≠ 120 := by
  induction bs with
  | nil => simp [encodeHexPairsLower]
  | cons b bs ih =>
    intro c hc
    rw [encodeHexPairsLower_cons] at hc
    have hblt : b < 256 := hb b (by simp)
    simp only [List.mem_cons] at hc
    rcases hc with rfl | rfl | hc
    · exact hexDigitLower_ne_x _ (Nat.div_lt_of_lt_mul (by omega))
    · exact hexDigitLower_ne_x _ (Nat.mod_lt _ (by omega))
    · exact ih (fun d hd => hb d (by simp [hd])) c hc

/-- Decoding a hex string determines its ASCII-lowered form: it is the
canonical lowercase encoding of the decoded bytes. -/
theorem decodeHexPairs_spec (hex : List Nat) : ∀ bs, decodeHexPairs hex = some bs →
    hex.map asciiLower = encodeHexPairsLower bs ∧
    hex.length = 2 * bs.length ∧ ∀ b ∈ bs, b < 256 := by
  induction hex using decodeHexPairs.induct with
  | case1 =>
    intro bs h
    simp [decodeHexPairs] at h
    subst h
    simp [encodeHexPairsLower]
  | case2 c =>
    intro bs h
    simp [decodeHexPairs] at h
  | case3 c1 c2 rest ih =>
    intro bs h
    simp only [decodeHexPairs, Option.bind_eq_some, Option.map_eq_some'] at h
    obtain ⟨v1, e1, v2, e2, bs', e3, rfl⟩ := h
    obtain ⟨hmap, hlen, hlt⟩ := ih bs' e3
    obtain ⟨hl1, hv1⟩ := hexDigitVal_lower c1 v1 e1
    obtain ⟨hl2, hv2⟩ := hexDigitVal_lower c2 v2 e2
    refine ⟨?_, by simp only [List.length_cons, hlen]; ring, ?_⟩
    · rw [List.map_cons, List.map_cons, hmap, encodeHexPairsLower_cons, hl1, hl2]
      have hd : (16 * v1 + v2) / 16 = v1 := by omega
      have hm : (16 * v1 + v2) % 16 = v2 := by omega
      rw [hd, hm]
    · intro b hb
      simp only [List.mem_cons] at hb
      rcases hb with rfl | hb
      · omega
      · exact hlt b hb

/-- A string `a` is the rendering of the 20-byte address `bs` when it has
42 code points, starts (after ASCII-lowering) with `0x`, and its remaining
40 code points hex-decode to `bs`. -/
def isAddrOf (bs a : List Nat) : Prop :=
  bs.length = 20 ∧ a.length = 42 ∧ (a.map asciiLower).take 2 = [48, 120] ∧
    decodeHexPairs (a.drop 2) = some bs

instance isAddrOf.dec (bs a : List Nat) : Decidable (isAddrOf bs a) := by
  unfold isAddrOf
  infer_instance

/-- On an address rendering, lowering then stripping `0x` yields exactly the
lowercase hex encoding of the address bytes. -/
theorem replace_lower_of_isAddrOf (bs a : List Nat) (h : isAddrOf bs a) :
    replace0x (a.map asciiLower) = encodeHexPairsLower bs := by
  obtain ⟨hlen20, hlen42, htake, hdec⟩ := h
  obtain ⟨hmap, hlen, hlt⟩ := decodeHexPairs_spec (a.drop 2) bs hdec
  have hsplit : a.map asciiLower
      = (a.map asciiLower).take 2 ++ (a.drop 2).map asciiLower := by
    rw [List.map_drop, List.take_append_drop]
  rw [hsplit, htake, hmap]
  rw [List.cons_append, List.cons_append, List.nil_append, replace0x_cons_ox]
  exact replace0x_eq_self _ (encodeHexPairsLower_no_x bs hlt)

/-- The concatenated signer hex of a list of address renderings is the
lowercase hex encoding of the concatenated address bytes. -/
theorem signers_hex_spec (bss : List (List Nat)) :
    ∀ addrs : List Str, bss.length = addrs.length →
    (∀ p ∈ bss.zip addrs, isAddrOf p.1 p.2) →
    (addrs.map (fun addr => replace0x (addr.map asciiLower))).flatten
      = encodeHexPairsLower bss.flatten ∧
    bss.flatten.length = 20 * addrs.length := by
  induction bss with
  | nil =>
    intro addrs hlen _
    cases addrs with
    | nil => simp [encodeHexPairsLower]
    | cons a addrs => simp at hlen
  | cons bs bss ih =>
    intro addrs hlen h
    cases addrs with
    | nil => simp at hlen
    | cons a addrs =>
      have h1 : isAddrOf bs a := h (bs, a) (by simp)
      obtain ⟨hj, hl⟩ := ih addrs (by simpa using hlen)
        (fun p hp => h p (List.mem_cons_of_mem _ hp))
      constructor
      · rw [List.map_cons, List.flatten_cons, List.flatten_cons,
          encodeHexPairsLower_append, replace_lower_of_isAddrOf bs a h1, hj]
      · simp only [List.flatten_cons, List.length_append, List.length_cons, hl,
          h1.1]
        ring

/-- Claim C1: for a list of N authority addresses (each rendering 20 bytes),
the genesis `extraData` is `0x` followed by the lowercase hex encoding of
32 zero bytes, then the 20 raw bytes of each address in the order supplied,
then 65 zero bytes, so it encodes `32 + 20*N + 65` bytes (its code-point
length is `2 + 2*(32 + 20*N + 65)`). -/
theorem genesis_extraData_layout (cid gl : Nat) (bss : List (List Nat))
    (addrs : List Str) (hlen : bss.length = addrs.length)
    (h : ∀ p ∈ bss.zip addrs, isAddrOf p.1 p.2) :
    (build_clique_genesis cid addrs gl).extraData
      = 48 :: 120 :: encodeHexPairsLower
          (List.replicate 32 0 ++ bss.flatten ++ List.replicate 65 0) ∧
    (build_clique_genesis cid addrs gl).extraData.length
      = 2 + 2 * (32 + 20 * addrs.length + 65) := by
  obtain ⟨hjoin, hlenj⟩ := signers_hex_spec bss addrs hlen h
  have hvan : encodeHexPairsLower (List.replicate 32 0) = List.replicate 64 48 := by
    decide
  have htail : encodeHexPairsLower (List.replicate 65 0) = List.replicate 130 48 := by
    decide
  have hext : (build_clique_genesis cid addrs gl).extraData
      = 48 :: 120 :: (List.replicate 64 48
          ++ (addrs.map (fun addr => replace0x (addr.map asciiLower))).flatten
          ++ List.replicate 130 48) := rfl
  constructor
  · rw [hext, hjoin, encodeHexPairsLower_append, encodeHexPairsLower_append,
      hvan, htail]
  · rw [hext]
    simp only [List.length_cons, List.length_append, List.length_replicate,
      hjoin, encodeHexPairsLower_length, hlenj]
    ring

/-- Witness for C1: one mixed-case address `0xABAB…AB` (20 bytes `0xAB`). -/
theorem genesis_extraData_layout_witness :
    (build_clique_genesis 1515 [48 :: 120 :: (List.replicate 20 [65, 66]).flatten]
        8000000).extraData.length = 2 + 2 * (32 + 20 * 1 + 65) :=
  (genesis_extraData_layout 1515 8000000 [List.replicate 20 171]
    [48 :: 120 :: (List.replicate 20 [65, 66]).flatten] rfl (by decide)).2

/-- Claim C9: genesis construction is case-insensitive in the addresses:
for every chain identifier and gas limit, an ASCII address list and its
lower-cased form produce the same genesis descriptor, because each address
is lower-cased (and stripped of `0x`) before entering `extraData`. -/
theorem genesis_case_insensitive (cid gl : Nat) (addrs : List Str)
    (_hascii : ∀ a ∈ addrs, ∀ c ∈ a, c < 128) :
    build_clique_genesis cid (addrs.map (fun a => a.map asciiLower)) gl
      = build_clique_genesis cid addrs gl := by
  have hkey : (addrs.map (fun a => a.map asciiLower)).map
      (fun addr => replace0x (addr.map asciiLower))
      = addrs.map (fun addr => replace0x (addr.map asciiLower)) := by
    rw [List.map_map]
    refine List.map_congr_left (fun a _ => ?_)
    simp only [Function.comp_apply, List.map_map]
    have hcomp : asciiLower ∘ asciiLower = asciiLower := funext asciiLower_idem
    rw [hcomp]
  unfold build_clique_genesis
  rw [hkey]

/-- Witness for C9 at the single mixed-case address `0xAB`. -/
theorem genesis_case_insensitive_witness :
    build_clique_genesis 1515 [[48, 120, 97, 98]] 8000000
      = build_clique_genesis 1515 [[48, 120, 65, 66]] 8000000 := by
  have h := genesis_case_insensitive 1515 8000000 [[48, 120, 65, 66]] (by decide)
  simpa using h

/-- Module constant `HTTP_BASE` (line 22). -/
def HTTP_BASE : Nat := 8545

/-- Module constant `P2P_BASE` (line 23). -/
def P2P_BASE : Nat := 30303

/-- Translation of `get_node_http_port` (lines 125-126). -/
def get_node_http_port (idx : Nat) : Nat := HTTP_BASE + (idx - 1)

/-- Translation of `get_node_p2p_port` (lines 128-129). -/
def get_node_p2p_port (idx : Nat) : Nat := P2P_BASE + (idx - 1)

/-- Outcome of one `admin.node_info` RPC call inside `get_enode_via_rpc`
(lines 161-178): the call raises, returns a record whose `enode` entry is
missing or falsy, or returns a usable enode string. -/
inductive RpcRes where
  | exn : RpcRes
  | noEnode : RpcRes
  | found (s : Str) : RpcRes
  deriving DecidableEq, Repr

/-- Result of running a (possibly non-terminating) piece of the flow under a
fuel bound: `diverge` means the fuel ran out (the source loop had not
finished), `raised` models a Python exception escaping, `ok` a return. -/
inductive RunRes (α : Type) where
  | diverge : RunRes α
  | raised : RunRes α
  | ok (a : α) : RunRes α
  deriving DecidableEq, Repr

/-- Oracle for every external effect of `src/main.py`: per-node account
creation (the parsed address of `geth account new`, `none` when no address
can be parsed), per-node `geth init` return codes, per-node pids from the
start command, the sequence of `node_info` RPC outcomes, per-node
`add_peer` outcomes (`false` also covers a raised exception, which
`add_peer_via_rpc` converts to `False`), and the wall clock
(`int(time.time())`) as a function of a tick counter that advances on every
clock read and every `time.sleep`. -/
structure Env where
  accountAddr : Nat → Option Str
  initRet : Nat → Int
  startPid : Nat → Str
  nodeInfo : Nat → RpcRes
  addPeer : Nat → Bool
  clock : Nat → Nat

/-- Externally visible events of a provisioning run, in program order. -/
inductive Event where
  | accountCreated (i : Nat) (addr : Str) : Event
  | genesisWritten (t : Nat) (g : Genesis) : Event
  | gethInit (i : Nat) : Event
  | nodeStarted (i : Nat) : Event
  | sleep2 (k : Nat) : Event
  | sleep1 (k : Nat) : Event
  | nodeInfoCall (port j : Nat) : Event
  | addPeerCall (port : Nat) (enode : Str) (ok : Bool) : Event
  | metaWritten (t : Nat) : Event
  deriving DecidableEq, Repr

/-- The cluster metadata dictionary written at the end of `provision_cluster`
(lines 225-231), plus the timestamp used in the metadata file name
(`cluster_{int(time.time())}.json`, a separate clock read, line 232). -/
structure Meta where
  timestamp : Nat
  num_nodes : Nat
  signers : List Str
  genesisT : Nat
  pids : List Str
  metaT : Nat
  deriving DecidableEq, Repr

/-- Translation of the loop body of `init_nodes` (lines 104-118) over an
explicit list of node indices: create each account in order, abort
(`RuntimeError` in `create_account`) as soon as one yields no address. -/
def init_nodesAux (env : Env) : List Nat → List Event × Option (List Str)
  | [] => ([], some [])
  | i :: rest =>
    match env.accountAddr i with
    | none => ([], none)
    | some a =>
      let r := init_nodesAux env rest
      (Event.accountCreated i a :: r.1, r.2.map (fun as => a :: as))

/-- Translation of `init_nodes` (lines 104-118): node indices run `1..N`. -/
def init_nodes (env : Env) (num_nodes : Nat) : List Event × Option (List Str) :=
  init_nodesAux env ((List.range num_nodes).map (· + 1))

/-- Translation of the `init_geth_datadir` loop (step 3, lines 200-202):
run `geth init` on each node in order; a non-zero exit raises. -/
def init_loopAux (env : Env) : List Nat → List Event × Bool
  | [] => ([], true)
  | i :: rest =>
    if env.initRet i = 0 then
      let r := init_loopAux env rest
      (Event.gethInit i :: r.1, r.2)
    else ([Event.gethInit i], false)

/-- The init loop over node indices `1..N`. -/
def init_loop (env : Env) (num_nodes : Nat) : List Event × Bool :=
  init_loopAux env ((List.range num_nodes).map (· + 1))

/-- Translation of the start loop (step 4, lines 205-211): start each node
(capturing its pid), then `time.sleep(2)`; each sleep consumes one clock
tick. -/
def start_loopAux (env : Env) : List Nat → Nat → List Event × List Str × Nat
  | [], k => ([], [], k)
  | i :: rest, k =>
    let r := start_loopAux env rest (k + 1)
    (Event.nodeStarted i :: Event.sleep2 k :: r.1, env.startPid i :: r.2.1, r.2.2)

/-- The start loop over node indices `1..N`, starting at tick `k`. -/
def start_loop (env : Env) (num_nodes k : Nat) : List Event × List Str × Nat :=
  start_loopAux env ((List.range num_nodes).map (· + 1)) k

/-- Translation of the retry loop of `get_enode_via_rpc` (lines 161-178):
`attempts` counts only calls that raised (the `except` branch is the only
place `attempts += 1` occurs); a falsy `enode` neither returns nor counts.
`r` numbers the `node_info` calls, `k` is the clock tick (each
`time.sleep(1)` consumes a tick), and `fuel` bounds the modelled
iterations: `diverge` reports that the source loop was still running. -/
def get_enode_aux (env : Env) : Nat → Nat → Nat → Nat → Nat →
    List Event × RunRes Str × Nat × Nat
  | 0, _, _, r, k => ([], RunRes.diverge, r, k)
  | fuel + 1, attempts, port, r, k =>
    if attempts < 10 then
      match env.nodeInfo r with
      | RpcRes.found s => ([Event.nodeInfoCall port r], RunRes.ok s, r + 1, k)
      | RpcRes.noEnode =>
        let rec1 := get_enode_aux env fuel attempts port (r + 1) k
        (Event.nodeInfoCall port r :: rec1.1, rec1.2)
      | RpcRes.exn =>
        let rec1 := get_enode_aux env fuel (attempts + 1) port (r + 1) (k + 1)
        (Event.nodeInfoCall port r :: Event.sleep1 k :: rec1.1, rec1.2)
    else ([], RunRes.raised, r, k)

/-- Translation of `get_enode_via_rpc` called on a port (attempts start at 0). -/
def get_enode_via_rpc (env : Env) (fuel port r k : Nat) :
    List Event × RunRes Str × Nat × Nat :=
  get_enode_aux env fuel 0 port r k

/-- Translation of the peer-add loop (step 5b, lines 219-222): one
`add_peer_via_rpc` call per node index `2..num_nodes`, whose boolean
outcome (`False` on exception) is recorded and never aborts the loop. -/
def peer_loop (env : Env) (enode : Str) (num_nodes : Nat) : List Event :=
  (List.range' 2 (num_nodes - 1)).map
    (fun i => Event.addPeerCall (get_node_http_port i) enode (env.addPeer i))

/-- Translation of `provision_cluster` (lines 190-236). The tick counter
starts at `k0` (first clock read: the genesis file name), the `node_info`
call counter at `r0`. Returns the event trace, the final tick and call
counters, and the run's outcome. -/
def provision_cluster (env : Env) (num_nodes chain_id : Nat) (k0 r0 fuel : Nat) :
    List Event × Nat × Nat × RunRes Meta :=
  match init_nodes env num_nodes with
  | (evsA, none) => (evsA, k0, r0, RunRes.raised)
  | (evsA, some signer_addrs) =>
    let genesis := build_clique_genesis chain_id signer_addrs
    let t_g := env.clock k0
    let evs1 := evsA ++ [Event.genesisWritten t_g genesis]
    match init_loop env num_nodes with
    | (evsI, false) => (evs1 ++ evsI, k0 + 1, r0, RunRes.raised)
    | (evsI, true) =>
      let s := start_loop env num_nodes (k0 + 1)
      let boot_http_port := get_node_http_port 1
      match get_enode_via_rpc env fuel boot_http_port r0 s.2.2 with
      | (evsD, RunRes.diverge, r2, k2) =>
        (evs1 ++ evsI ++ s.1 ++ evsD, k2, r2, RunRes.diverge)
      | (evsD, RunRes.raised, r2, k2) =>
        (evs1 ++ evsI ++ s.1 ++ evsD, k2, r2, RunRes.raised)
      | (evsD, RunRes.ok enode, r2, k2) =>
        let evsP := peer_loop env enode num_nodes
        let ts := env.clock k2
        let tm := env.clock (k2 + 1)
        let meta : Meta :=
          ⟨ts, num_nodes, signer_addrs, t_g, s.2.1, tm⟩
        (evs1 ++ evsI ++ s.1 ++ evsD ++ evsP ++ [Event.metaWritten tm],
          k2 + 2, r2, RunRes.ok meta)

/-- With no falsy-enode responses, the retry loop cannot run out of fuel
once the fuel exceeds the remaining attempt budget. -/
theorem get_enode_aux_total (env : Env)
    (h : ∀ j, env.nodeInfo j ≠ RpcRes.noEnode) :
    ∀ fuel attempts port r k, 10 - attempts < fuel →
      (get_enode_aux env fuel attempts port r k).2.1 ≠ RunRes.diverge := by
  intro fuel
  induction fuel with
  | zero => intro attempts port r k hf; omega
  | succ fuel ih =>
    intro attempts port r k hf
    by_cases ha : attempts < 10
    · cases hr : env.nodeInfo r with
      | exn =>
        simp only [get_enode_aux, if_pos ha, hr]
        exact ih (attempts + 1) port (r + 1) (k + 1) (by omega)
      | noEnode => exact absurd hr (h r)
      | found s => simp [get_enode_aux, if_pos ha, hr]
    · simp [get_enode_aux, if_neg ha]

/-- If the first `m` calls raise and call `m` supplies an enode, the loop
returns that enode (provided the attempt budget and fuel cover `m`). -/
theorem get_enode_aux_first_found (env : Env) (s : Str) :
    ∀ m attempts port r k fuel,
      (∀ j, j < m → env.nodeInfo (r + j) = RpcRes.exn) →
      env.nodeInfo (r + m) = RpcRes.found s →
      attempts + m < 10 → m < fuel →
      (get_enode_aux env fuel attempts port r k).2.1 = RunRes.ok s := by
  intro m
  induction m with
  | zero =>
    intro attempts port r k fuel _ hfound ha hfuel
    cases fuel with
    | zero => omega
    | succ fuel =>
      have hr : env.nodeInfo r = RpcRes.found s := by simpa using hfound
      simp [get_enode_aux, if_pos (by omega : attempts < 10), hr]
  | succ m ih =>
    intro attempts port r k fuel hexn hfound ha hfuel
    cases fuel with
    | zero => omega
    | succ fuel =>
      have hr : env.nodeInfo r = RpcRes.exn := by
        have := hexn 0 (by omega)
        simpa using this
      simp only [get_enode_aux, if_pos (by omega : attempts < 10), hr]
      refine ih (attempts + 1) port (r + 1) (k + 1) fuel ?_ ?_ (by omega) (by omega)
      · intro j hj
        have := hexn (j + 1) (by omega)
        rwa [show r + (j + 1) = r + 1 + j by omega] at this
      · rwa [show r + (m + 1) = r + 1 + m by omega] at hfound

/-- Claim C2 (amended): the `node_info` retry counter counts only raised
calls, with ceiling 10; for every endpoint behaviour in which no call
returns a response lacking a usable enode, discovery finishes within fuel
11 (it returns an address or raises, never diverges), and if the endpoint
raises on the first 9 calls and supplies an enode on the 10th, discovery
returns that enode. -/
theorem get_enode_bounded_retry (env : Env) (port r0 k0 : Nat)
    (h : ∀ j, env.nodeInfo j ≠ RpcRes.noEnode) :
    (get_enode_via_rpc env 11 port r0 k0).2.1 ≠ RunRes.diverge ∧
    (∀ s, (∀ j, j < 9 → env.nodeInfo (r0 + j) = RpcRes.exn) →
      env.nodeInfo (r0 + 9) = RpcRes.found s →
      (get_enode_via_rpc env 11 port r0 k0).2.1 = RunRes.ok s) := by
  constructor
  · exact get_enode_aux_total env h 11 0 port r0 k0 (by omega)
  · intro s hexn hfound
    exact get_enode_aux_first_found env s 9 0 port r0 k0 11 hexn hfound
      (by omega) (by omega)

/-- Endpoint behaviour that always answers without a usable enode. -/
def envNoEnode : Env :=
  { accountAddr := fun _ => none, initRet := fun _ => 0,
    startPid := fun _ => [], nodeInfo := fun _ => RpcRes.noEnode,
    addPeer := fun _ => false, clock := fun k => k }

/-- Counterexample to claim C2 as stated: when every response merely lacks
a usable enode (no exception), the loop never increments `attempts`, so
discovery is still running after 50 iterations — far beyond the 10-attempt
ceiling — instead of terminating within the ceiling. -/
theorem get_enode_unbounded_counterexample :
    (get_enode_via_rpc envNoEnode 50 8545 0 0).2.1 = RunRes.diverge := by rfl

/-- Endpoint behaviour that raises 9 times then supplies the enode `e`. -/
def envRetryThenOk : Env :=
  { accountAddr := fun _ => none, initRet := fun _ => 0,
    startPid := fun _ => [], addPeer := fun _ => true, clock := fun k => k,
    nodeInfo := fun j => if j < 9 then RpcRes.exn else RpcRes.found [101] }

/-- Witness for C2 (amended): 9 raised calls then success yields the enode. -/
theorem get_enode_bounded_retry_witness :
    (get_enode_via_rpc envRetryThenOk 11 8545 0 0).2.1 = RunRes.ok [101] :=
  (get_enode_bounded_retry envRetryThenOk 8545 0 0 (fun j => by
      simp only [envRetryThenOk]
      split <;> simp)).2 [101]
    (fun j hj => by simp [envRetryThenOk, hj]) (by simp [envRetryThenOk])

/-- Account-creation events are the only events of the identity phase. -/
theorem init_nodesAux_shape (env : Env) (idxs : List Nat) :
    ∀ ev ∈ (init_nodesAux env idxs).1, ∃ i a, ev = Event.accountCreated i a := by
  induction idxs with
  | nil => simp [init_nodesAux]
  | cons i rest ih =>
    intro ev hev
    simp only [init_nodesAux] at hev
    cases ha : env.accountAddr i with
    | none => rw [ha] at hev; simp at hev
    | some a =>
      rw [ha] at hev
      simp only [List.mem_cons] at hev
      rcases hev with rfl | hev
      · exact ⟨i, a, rfl⟩
      · exact ih ev hev

/-- When every requested account parses, the identity phase succeeds. -/
theorem init_nodesAux_isSome (env : Env) (idxs : List Nat)
    (h : ∀ i ∈ idxs, (env.accountAddr i).isSome) :
    ∃ addrs, (init_nodesAux env idxs).2 = some addrs := by
  induction idxs with
  | nil => exact ⟨[], rfl⟩
  | cons i rest ih =>
    obtain ⟨a, ha⟩ := Option.isSome_iff_exists.mp (h i (by simp))
    obtain ⟨addrs, haddrs⟩ := ih (fun j hj => h j (by simp [hj]))
    exact ⟨a :: addrs, by simp [init_nodesAux, ha, haddrs]⟩

/-- Init events are the only events of the `geth init` phase. -/
theorem init_loopAux_shape (env : Env) (idxs : List Nat) :
    ∀ ev ∈ (init_loopAux env idxs).1, ∃ i, ev = Event.gethInit i := by
  induction idxs with
  | nil => simp [init_loopAux]
  | cons i rest ih =>
    intro ev hev
    simp only [init_loopAux] at hev
    by_cases hi : env.initRet i = 0
    · rw [if_pos hi] at hev
      simp only [List.mem_cons] at hev
      rcases hev with rfl | hev
      · exact ⟨i, rfl⟩
      · exact ih ev hev
    · rw [if_neg hi] at hev
      simp only [List.mem_singleton] at hev
      exact ⟨i, hev⟩

/-- The init phase reports success exactly when every `geth init` exits 0. -/
theorem init_loopAux_ok_iff (env : Env) (idxs : List Nat) :
    (init_loopAux env idxs).2 = true ↔ ∀ i ∈ idxs, env.initRet i = 0 := by
  induction idxs with
  | nil => simp [init_loopAux]
  | cons i rest ih =>
    by_cases hi : env.initRet i = 0
    · simp [init_loopAux, hi, ih]
    · simp [init_loopAux, hi]

/-- Start and sleep events are the only events of the start phase. -/
theorem start_loopAux_shape (env : Env) (idxs : List Nat) :
    ∀ k, ∀ ev ∈ (start_loopAux env idxs k).1,
      (∃ i, ev = Event.nodeStarted i) ∨ (∃ kk, ev = Event.sleep2 kk) := by
  induction idxs with
  | nil => simp [start_loopAux]
  | cons i rest ih =>
    intro k ev hev
    simp only [start_loopAux, List.mem_cons] at hev
    rcases hev with rfl | rfl | hev
    · exact Or.inl ⟨i, rfl⟩
    · exact Or.inr ⟨k, rfl⟩
    · exact ih (k + 1) ev hev

/-- The start phase consumes one sleep tick per node. -/
theorem start_loopAux_tick (env : Env) (idxs : List Nat) :
    ∀ k, (start_loopAux env idxs k).2.2 = k + idxs.length := by
  induction idxs with
  | nil => simp [start_loopAux]
  | cons i rest ih =>
    intro k
    simp only [start_loopAux, ih (k + 1), List.length_cons]
    omega

/-- A non-empty start phase begins with a 2-second sleep at its first tick. -/
theorem start_loopAux_first_sleep (env : Env) (i : Nat) (idxs : List Nat)
    (k : Nat) : Event.sleep2 k ∈ (start_loopAux env (i :: idxs) k).1 := by
  simp [start_loopAux]

/-- RPC-call and 1-second-sleep events are the only discovery events. -/
theorem get_enode_aux_shape (env : Env) :
    ∀ fuel attempts port r k, ∀ ev ∈ (get_enode_aux env fuel attempts port r k).1,
      (∃ p j, ev = Event.nodeInfoCall p j) ∨ (∃ kk, ev = Event.sleep1 kk) := by
  intro fuel
  induction fuel with
  | zero => simp [get_enode_aux]
  | succ fuel ih =>
    intro attempts port r k ev hev
    by_cases ha : attempts < 10
    · simp only [get_enode_aux, if_pos ha] at hev
      cases hr : env.nodeInfo r with
      | exn =>
        rw [hr] at hev
        simp only [List.mem_cons] at hev
        rcases hev with rfl | rfl | hev
        · exact Or.inl ⟨port, r, rfl⟩
        · exact Or.inr ⟨k, rfl⟩
        · exact ih (attempts + 1) port (r + 1) (k + 1) ev hev
      | noEnode =>
        rw [hr] at hev
        simp only [List.mem_cons] at hev
        rcases hev with rfl | hev
        · exact Or.inl ⟨port, r, rfl⟩
        · exact ih attempts port (r + 1) k ev hev
      | found s =>
        rw [hr] at hev
        simp only [List.mem_singleton] at hev
        exact Or.inl ⟨port, r, hev⟩
    · simp [get_enode_aux, if_neg ha] at hev

/-- Discovery never moves the clock backwards. -/
theorem get_enode_aux_tick_le (env : Env) :
    ∀ fuel attempts port r k,
      k ≤ (get_enode_aux env fuel attempts port r k).2.2.2 := by
  intro fuel
  induction fuel with
  | zero => intro attempts port r k; simp [get_enode_aux]
  | succ fuel ih =>
    intro attempts port r k
    by_cases ha : attempts < 10
    · cases hr : env.nodeInfo r with
      | exn =>
        simp only [get_enode_aux, if_pos ha, hr]
        exact le_trans (by omega) (ih (attempts + 1) port (r + 1) (k + 1))
      | noEnode =>
        simp only [get_enode_aux, if_pos ha, hr]
        exact ih attempts port (r + 1) k
      | found s => simp [get_enode_aux, if_pos ha, hr]
    · simp [get_enode_aux, if_neg ha]

/-- Ten straight raised calls exhaust the retry budget (raising). -/
theorem get_enode_aux_exhaust (env : Env) (port : Nat) :
    ∀ fuel attempts r k,
      (∀ j, j < 10 - attempts → env.nodeInfo (r + j) = RpcRes.exn) →
      10 - attempts < fuel →
      (get_enode_aux env fuel attempts port r k).2.1 = RunRes.raised := by
  intro fuel
  induction fuel with
  | zero => intro attempts r k _ hf; omega
  | succ fuel ih =>
    intro attempts r k hexn hf
    by_cases ha : attempts < 10
    · have hr : env.nodeInfo r = RpcRes.exn := by
        have := hexn 0 (by omega)
        simpa using this
      simp only [get_enode_aux, if_pos ha, hr]
      refine ih (attempts + 1) (r + 1) (k + 1) ?_ (by omega)
      intro j hj
      have := hexn (j + 1) (by omega)
      rwa [show r + (j + 1) = r + 1 + j by omega] at this
    · simp [get_enode_aux, if_neg ha]

/-- Claim C4: if `geth init` fails for any node, the run raises before the
start phase: no node-start event occurs for any node, not even for nodes
whose init succeeded. -/
theorem init_failure_blocks_start (env : Env) (N cid k0 r0 fuel : Nat)
    (hacc : ∀ i, i < N → (env.accountAddr (i + 1)).isSome)
    (hfail : ∃ i, i < N ∧ env.initRet (i + 1) ≠ 0) :
    (provision_cluster env N cid k0 r0 fuel).2.2.2 = RunRes.raised ∧
    ∀ i, Event.nodeStarted i ∉ (provision_cluster env N cid k0 r0 fuel).1 := by
  obtain ⟨addrs, haddrs⟩ := init_nodesAux_isSome env ((List.range N).map (· + 1))
    (by
      intro i hi
      simp only [List.mem_map, List.mem_range] at hi
      obtain ⟨j, hj, rfl⟩ := hi
      exact hacc j hj)
  have hloop : (init_loop env N).2 = false := by
    rcases hb : (init_loop env N).2 with _ | _
    · rfl
    · exfalso
      obtain ⟨i, hiN, hne⟩ := hfail
      exact hne (((init_loopAux_ok_iff env _).mp hb) (i + 1)
        (by simp only [List.mem_map, List.mem_range]; exact ⟨i, hiN, rfl⟩))
  rcases h1 : init_nodes env N with ⟨evsA, oA⟩
  have hoA : oA = some addrs := by
    have : (init_nodes env N).2 = some addrs := haddrs
    rw [h1] at this
    exact this
  subst hoA
  rcases h2 : init_loop env N with ⟨evsI, b⟩
  have hb : b = false := by
    have := hloop
    rw [h2] at this
    exact this
  subst hb
  have hprov : provision_cluster env N cid k0 r0 fuel
      = (evsA ++ [Event.genesisWritten (env.clock k0)
          (build_clique_genesis cid addrs)] ++ evsI, k0 + 1, r0,
        RunRes.raised) := by
    simp only [provision_cluster, h1, h2]
  rw [hprov]
  refine ⟨rfl, ?_⟩
  intro i hmem
  simp only [List.mem_append, List.mem_singleton] at hmem
  rcases hmem with (hmem | hmem) | hmem
  · obtain ⟨j, a, hja⟩ := init_nodesAux_shape env _ _ (by
      have : (init_nodes env N).1 = evsA := by rw [h1]
      rw [← this] at hmem
      exact hmem)
    exact Event.noConfusion hja
  · exact Event.noConfusion hmem
  · obtain ⟨j, hj⟩ := init_loopAux_shape env _ _ (by
      have : (init_loop env N).1 = evsI := by rw [h2]
      rw [← this] at hmem
      exact hmem)
    exact Event.noConfusion hj

/-- Witness for C4: two nodes, node 2's init exits non-zero. -/
def envInitFail : Env :=
  { accountAddr := fun _ => some [48, 120, 97], initRet := fun i => if i = 2 then 1 else 0,
    startPid := fun _ => [49], nodeInfo := fun _ => RpcRes.found [101],
    addPeer := fun _ => true, clock := fun k => k }

/-- Witness for C4 at `N = 2`. -/
theorem init_failure_blocks_start_witness :
    (provision_cluster envInitFail 2 1515 0 0 11).2.2.2 = RunRes.raised :=
  (init_failure_blocks_start envInitFail 2 1515 0 0 11
    (fun i _ => by simp [envInitFail]) ⟨1, by omega, by simp [envInitFail]⟩).1

/-- Claim C5: if bootstrap discovery exhausts its retry budget, the run
raises with zero peer-add calls issued and no cluster record written. -/
theorem discovery_exhausted_no_peering (env : Env) (N cid k0 r0 fuel : Nat)
    (hacc : ∀ i, i < N → (env.accountAddr (i + 1)).isSome)
    (hinit : ∀ i, i < N → env.initRet (i + 1) = 0)
    (hexn : ∀ j, j < 10 → env.nodeInfo (r0 + j) = RpcRes.exn)
    (hfuel : 11 ≤ fuel) :
    (provision_cluster env N cid k0 r0 fuel).2.2.2 = RunRes.raised ∧
    (∀ p e b, Event.addPeerCall p e b ∉ (provision_cluster env N cid k0 r0 fuel).1) ∧
    (∀ t, Event.metaWritten t ∉ (provision_cluster env N cid k0 r0 fuel).1) := by
  obtain ⟨addrs, haddrs⟩ := init_nodesAux_isSome env ((List.range N).map (· + 1))
    (by
      intro i hi
      simp only [List.mem_map, List.mem_range] at hi
      obtain ⟨j, hj, rfl⟩ := hi
      exact hacc j hj)
  have hloop : (init_loop env N).2 = true := by
    refine (init_loopAux_ok_iff env _).mpr ?_
    intro i hi
    simp only [List.mem_map, List.mem_range] at hi
    obtain ⟨j, hj, rfl⟩ := hi
    exact hinit j hj
  rcases h1 : init_nodes env N with ⟨evsA, oA⟩
  have hoA : oA = some addrs := by
    have : (init_nodes env N).2 = some addrs := haddrs
    rw [h1] at this
    exact this
  subst hoA
  rcases h2 : init_loop env N with ⟨evsI, b⟩
  have hb : b = true := by
    have := hloop
    rw [h2] at this
    exact this
  subst hb
  rcases h3 : get_enode_via_rpc env fuel (get_node_http_port 1) r0
      (start_loop env N (k0 + 1)).2.2 with ⟨evsD, res, r2, k2⟩
  have hres : res = RunRes.raised := by
    have := get_enode_aux_exhaust env (get_node_http_port 1) fuel 0 r0
      (start_loop env N (k0 + 1)).2.2 (fun j hj => hexn j (by omega)) (by omega)
    rw [show get_enode_aux env fuel 0 (get_node_http_port 1) r0
        (start_loop env N (k0 + 1)).2.2
      = get_enode_via_rpc env fuel (get_node_http_port 1) r0
        (start_loop env N (k0 + 1)).2.2 from rfl, h3] at this
    exact this
  subst hres
  have hprov : provision_cluster env N cid k0 r0 fuel
      = (evsA ++ [Event.genesisWritten (env.clock k0)
            (build_clique_genesis cid addrs)] ++ evsI
          ++ (start_loop env N (k0 + 1)).1 ++ evsD, k2, r2, RunRes.raised) := by
    simp only [provision_cluster, h1, h2, h3]
  rw [hprov]
  have hmemall : ∀ ev, ev ∈ evsA ++ [Event.genesisWritten (env.clock k0)
        (build_clique_genesis cid addrs)] ++ evsI
        ++ (start_loop env N (k0 + 1)).1 ++ evsD →
      (∃ i a, ev = Event.accountCreated i a) ∨
      (∃ t g, ev = Event.genesisWritten t g) ∨
      (∃ i, ev = Event.gethInit i) ∨
      (∃ i, ev = Event.nodeStarted i) ∨ (∃ kk, ev = Event.sleep2 kk) ∨
      (∃ p j, ev = Event.nodeInfoCall p j) ∨ (∃ kk, ev = Event.sleep1 kk) := by
    intro ev hmem
    simp only [List.mem_append, List.mem_singleton] at hmem
    rcases hmem with (((hmem | hmem) | hmem) | hmem) | hmem
    · exact Or.inl (init_nodesAux_shape env _ _ (by rw [show evsA = (init_nodes env N).1 by rw [h1]] at hmem; exact hmem))
    · exact Or.inr (Or.inl ⟨_, _, hmem⟩)
    · exact Or.inr (Or.inr (Or.inl (init_loopAux_shape env _ _ (by rw [show evsI = (init_loop env N).1 by rw [h2]] at hmem; exact hmem))))
    · rcases start_loopAux_shape env _ _ _ hmem with h | h
      · exact Or.inr (Or.inr (Or.inr (Or.inl h)))
      · exact Or.inr (Or.inr (Or.inr (Or.inr (Or.inl h))))
    · rcases get_enode_aux_shape env fuel 0 (get_node_http_port 1) r0
          (start_loop env N (k0 + 1)).2.2 ev
          (by rw [show evsD = (get_enode_via_rpc env fuel (get_node_http_port 1) r0 (start_loop env N (k0 + 1)).2.2).1 by rw [h3]] at hmem; exact hmem) with h | h
      · exact Or.inr (Or.inr (Or.inr (Or.inr (Or.inr (Or.inl h)))))
      · exact Or.inr (Or.inr (Or.inr (Or.inr (Or.inr (Or.inr h)))))
  refine ⟨rfl, ?_, ?_⟩
  · intro p e bb hmem
    rcases hmemall _ hmem with ⟨_, _, h⟩ | ⟨_, _, h⟩ | ⟨_, h⟩ | ⟨_, h⟩ | ⟨_, h⟩
      | ⟨_, _, h⟩ | ⟨_, h⟩ <;> exact Event.noConfusion h
  · intro t hmem
    rcases hmemall _ hmem with ⟨_, _, h⟩ | ⟨_, _, h⟩ | ⟨_, h⟩ | ⟨_, h⟩ | ⟨_, h⟩
      | ⟨_, _, h⟩ | ⟨_, h⟩ <;> exact Event.noConfusion h

/-- Witness for C5: one node, every `node_info` call raises. -/
def envAllExn : Env :=
  { accountAddr := fun _ => some [48, 120, 97], initRet := fun _ => 0,
    startPid := fun _ => [49], nodeInfo := fun _ => RpcRes.exn,
    addPeer := fun _ => true, clock := fun k => k }

/-- Witness for C5 at `N = 1`. -/
theorem discovery_exhausted_no_peering_witness :
    (provision_cluster envAllExn 1 1515 0 0 11).2.2.2 = RunRes.raised :=
  (discovery_exhausted_no_peering envAllExn 1 1515 0 0 11
    (fun i _ => by simp [envAllExn]) (fun i _ => by simp [envAllExn])
    (fun j _ => by simp [envAllExn]) (by omega)).1

/-- Discriminator for peer-add RPC call events. -/
def isAddPeer : Event → Bool
  | Event.addPeerCall _ _ _ => true
  | _ => false

/-- A successful run, decomposed: genesis path stamped at tick `k0`, the
record's `timestamp` and file stamp `metaT` read at consecutive ticks after
discovery, the first start sleep at tick `k0 + 1`, and the genesis/record
writes unique in the trace. -/
theorem provision_ok_inversion (env : Env) (N cid k0 r0 fuel : Nat) (m : Meta)
    (h : (provision_cluster env N cid k0 r0 fuel).2.2.2 = RunRes.ok m) :
    ∃ kd, m.genesisT = env.clock k0 ∧ m.timestamp = env.clock kd ∧
      m.metaT = env.clock (kd + 1) ∧
      (provision_cluster env N cid k0 r0 fuel).2.1 = kd + 2 ∧
      k0 + 1 + N ≤ kd ∧
      (1 ≤ N →
        Event.sleep2 (k0 + 1) ∈ (provision_cluster env N cid k0 r0 fuel).1) ∧
      (∀ t g, Event.genesisWritten t g ∈ (provision_cluster env N cid k0 r0 fuel).1 →
        t = env.clock k0) ∧
      (∀ t, Event.metaWritten t ∈ (provision_cluster env N cid k0 r0 fuel).1 →
        t = env.clock (kd + 1)) := by
  rcases h1 : init_nodes env N with ⟨evsA, oA⟩
  cases oA with
  | none =>
    simp only [provision_cluster, h1] at h
    exact RunRes.noConfusion h
  | some addrs =>
  rcases h2 : init_loop env N with ⟨evsI, b⟩
  cases b with
  | false =>
    simp only [provision_cluster, h1, h2] at h
    exact RunRes.noConfusion h
  | true =>
  rcases h3 : get_enode_via_rpc env fuel (get_node_http_port 1) r0
      (start_loop env N (k0 + 1)).2.2 with ⟨evsD, res, r2, k2⟩
  cases res with
  | diverge =>
    simp only [provision_cluster, h1, h2, h3] at h
    exact RunRes.noConfusion h
  | raised =>
    simp only [provision_cluster, h1, h2, h3] at h
    exact RunRes.noConfusion h
  | ok enode =>
  have hm : m = ⟨env.clock k2, N, addrs, env.clock k0,
      (start_loop env N (k0 + 1)).2.1, env.clock (k2 + 1)⟩ := by
    simp only [provision_cluster, h1, h2, h3] at h
    injection h with h'
    exact h'.symm
  have hstick : (start_loop env N (k0 + 1)).2.2 = k0 + 1 + N := by
    rw [start_loop, start_loopAux_tick]
    simp
  have hk2 : k0 + 1 + N ≤ k2 := by
    have hle := get_enode_aux_tick_le env fuel 0 (get_node_http_port 1) r0
      (start_loop env N (k0 + 1)).2.2
    rw [show get_enode_aux env fuel 0 (get_node_http_port 1) r0
        (start_loop env N (k0 + 1)).2.2
      = get_enode_via_rpc env fuel (get_node_http_port 1) r0
        (start_loop env N (k0 + 1)).2.2 from rfl, h3] at hle
    simpa [hstick] using hle
  have hprov : provision_cluster env N cid k0 r0 fuel
      = (evsA ++ [Event.genesisWritten (env.clock k0)
            (build_clique_genesis cid addrs)] ++ evsI
          ++ (start_loop env N (k0 + 1)).1 ++ evsD ++ peer_loop env enode N
          ++ [Event.metaWritten (env.clock (k2 + 1))], k2 + 2, r2,
        RunRes.ok ⟨env.clock k2, N, addrs, env.clock k0,
          (start_loop env N (k0 + 1)).2.1, env.clock (k2 + 1)⟩) := by
    simp only [provision_cluster, h1, h2, h3]
  have hclass : ∀ ev, ev ∈ (provision_cluster env N cid k0 r0 fuel).1 →
      (∃ i a, ev = Event.accountCreated i a) ∨
      ev = Event.genesisWritten (env.clock k0) (build_clique_genesis cid addrs) ∨
      (∃ i, ev = Event.gethInit i) ∨
      (∃ i, ev = Event.nodeStarted i) ∨ (∃ kk, ev = Event.sleep2 kk) ∨
      (∃ p j, ev = Event.nodeInfoCall p j) ∨ (∃ kk, ev = Event.sleep1 kk) ∨
      (∃ i, ev = Event.addPeerCall (get_node_http_port i) enode (env.addPeer i)) ∨
      ev = Event.metaWritten (env.clock (k2 + 1)) := by
    intro ev hmem
    rw [hprov] at hmem
    simp only [List.mem_append, List.mem_singleton] at hmem
    rcases hmem with ((((((hmem | hmem) | hmem) | hmem) | hmem) | hmem) | hmem)
    · exact Or.inl (init_nodesAux_shape env _ ev
        (by rw [show evsA = (init_nodes env N).1 by rw [h1]] at hmem; exact hmem))
    · exact Or.inr (Or.inl hmem)
    · exact Or.inr (Or.inr (Or.inl (init_loopAux_shape env _ ev
        (by rw [show evsI = (init_loop env N).1 by rw [h2]] at hmem; exact hmem))))
    · rcases start_loopAux_shape env _ _ ev hmem with hs | hs
      · exact Or.inr (Or.inr (Or.inr (Or.inl hs)))
      · exact Or.inr (Or.inr (Or.inr (Or.inr (Or.inl hs))))
    · have hmemD : ev ∈ (get_enode_via_rpc env fuel (get_node_http_port 1) r0
          (start_loop env N (k0 + 1)).2.2).1 := by
        rw [h3]
        exact hmem
      rcases get_enode_aux_shape env fuel 0 (get_node_http_port 1) r0
          (start_loop env N (k0 + 1)).2.2 ev hmemD with hs | hs
      · exact Or.inr (Or.inr (Or.inr (Or.inr (Or.inr (Or.inl hs)))))
      · exact Or.inr (Or.inr (Or.inr (Or.inr (Or.inr (Or.inr (Or.inl hs))))))
    · simp only [peer_loop, List.mem_map] at hmem
      obtain ⟨i, _, he⟩ := hmem
      exact Or.inr (Or.inr (Or.inr (Or.inr (Or.inr (Or.inr (Or.inr (Or.inl
        ⟨i, he.symm⟩)))))))
    · exact Or.inr (Or.inr (Or.inr (Or.inr (Or.inr (Or.inr (Or.inr (Or.inr
        hmem)))))))
  refine ⟨k2, by rw [hm], by rw [hm], by rw [hm], by rw [hprov], hk2, ?_, ?_, ?_⟩
  · intro hN
    obtain ⟨n, rfl⟩ : ∃ n, N = n + 1 := ⟨N - 1, by omega⟩
    rw [hprov]
    have hmem : Event.sleep2 (k0 + 1) ∈ (start_loop env (n + 1) (k0 + 1)).1 := by
      rw [start_loop, List.range_succ_eq_map, List.map_cons]
      exact start_loopAux_first_sleep env 1 _ (k0 + 1)
    exact List.mem_append_left _ (List.mem_append_left _ (List.mem_append_left _
      (List.mem_append_right _ hmem)))
  · intro t g hmem
    rcases hclass _ hmem with ⟨_, _, he⟩ | he | ⟨_, he⟩ | ⟨_, he⟩ | ⟨_, he⟩
      | ⟨_, _, he⟩ | ⟨_, he⟩ | ⟨_, he⟩ | he
    · exact Event.noConfusion he
    · exact ((Event.genesisWritten.injEq _ _ _ _).mp he).1
    · exact Event.noConfusion he
    · exact Event.noConfusion he
    · exact Event.noConfusion he
    · exact Event.noConfusion he
    · exact Event.noConfusion he
    · exact Event.noConfusion he
    · exact Event.noConfusion he
  · intro t hmem
    rcases hclass _ hmem with ⟨_, _, he⟩ | he | ⟨_, he⟩ | ⟨_, he⟩ | ⟨_, he⟩
      | ⟨_, _, he⟩ | ⟨_, he⟩ | ⟨_, he⟩ | he
    · exact Event.noConfusion he
    · exact Event.noConfusion he
    · exact Event.noConfusion he
    · exact Event.noConfusion he
    · exact Event.noConfusion he
    · exact Event.noConfusion he
    · exact Event.noConfusion he
    · exact Event.noConfusion he
    · exact (Event.metaWritten.injEq _ _).mp he

/-- Claim C6: peering is best-effort per non-bootstrap node: on a successful
run, the peer-add calls in the trace are exactly one call per node index
`2..N` in order, each recording its (possibly negative) outcome, and the run
still completes with a cluster record no matter which peer-add calls fail. -/
theorem peering_best_effort (env : Env) (N cid k0 r0 fuel : Nat) (s : Str)
    (hacc : ∀ i, i < N → (env.accountAddr (i + 1)).isSome)
    (hinit : ∀ i, i < N → env.initRet (i + 1) = 0)
    (hfound : env.nodeInfo r0 = RpcRes.found s)
    (hfuel : 1 ≤ fuel) :
    (provision_cluster env N cid k0 r0 fuel).1.filter isAddPeer
      = (List.range' 2 (N - 1)).map
          (fun i => Event.addPeerCall (get_node_http_port i) s (env.addPeer i)) ∧
    ∃ m, (provision_cluster env N cid k0 r0 fuel).2.2.2 = RunRes.ok m ∧
      m.num_nodes = N ∧
      Event.metaWritten m.metaT ∈ (provision_cluster env N cid k0 r0 fuel).1 := by
  obtain ⟨addrs, haddrs⟩ := init_nodesAux_isSome env ((List.range N).map (· + 1))
    (by
      intro i hi
      simp only [List.mem_map, List.mem_range] at hi
      obtain ⟨j, hj, rfl⟩ := hi
      exact hacc j hj)
  have hloop : (init_loop env N).2 = true := by
    refine (init_loopAux_ok_iff env _).mpr ?_
    intro i hi
    simp only [List.mem_map, List.mem_range] at hi
    obtain ⟨j, hj, rfl⟩ := hi
    exact hinit j hj
  rcases h1 : init_nodes env N with ⟨evsA, oA⟩
  have hoA : oA = some addrs := by
    have h' : (init_nodes env N).2 = some addrs := haddrs
    rw [h1] at h'
    exact h'
  subst hoA
  rcases h2 : init_loop env N with ⟨evsI, b⟩
  have hb : b = true := by
    have h' := hloop
    rw [h2] at h'
    exact h'
  subst hb
  have h3 : get_enode_via_rpc env fuel (get_node_http_port 1) r0
      (start_loop env N (k0 + 1)).2.2
      = ([Event.nodeInfoCall (get_node_http_port 1) r0], RunRes.ok s, r0 + 1,
        (start_loop env N (k0 + 1)).2.2) := by
    obtain ⟨f, rfl⟩ : ∃ f, fuel = f + 1 := ⟨fuel - 1, by omega⟩
    simp [get_enode_via_rpc, get_enode_aux, hfound]
  have hprov : provision_cluster env N cid k0 r0 fuel
      = (evsA ++ [Event.genesisWritten (env.clock k0)
            (build_clique_genesis cid addrs)] ++ evsI
          ++ (start_loop env N (k0 + 1)).1
          ++ [Event.nodeInfoCall (get_node_http_port 1) r0]
          ++ peer_loop env s N
          ++ [Event.metaWritten (env.clock ((start_loop env N (k0 + 1)).2.2 + 1))],
        (start_loop env N (k0 + 1)).2.2 + 2, r0 + 1,
        RunRes.ok ⟨env.clock (start_loop env N (k0 + 1)).2.2, N, addrs,
          env.clock k0, (start_loop env N (k0 + 1)).2.1,
          env.clock ((start_loop env N (k0 + 1)).2.2 + 1)⟩) := by
    simp only [provision_cluster, h1, h2, h3]
  have hA : evsA.filter isAddPeer = [] := by
    refine List.filter_eq_nil_iff.mpr ?_
    intro ev hev
    obtain ⟨i, a, rfl⟩ := init_nodesAux_shape env _ ev
      (by rw [show evsA = (init_nodes env N).1 by rw [h1]] at hev; exact hev)
    simp [isAddPeer]
  have hI : evsI.filter isAddPeer = [] := by
    refine List.filter_eq_nil_iff.mpr ?_
    intro ev hev
    obtain ⟨i, rfl⟩ := init_loopAux_shape env _ ev
      (by rw [show evsI = (init_loop env N).1 by rw [h2]] at hev; exact hev)
    simp [isAddPeer]
  have hS : ((start_loop env N (k0 + 1)).1).filter isAddPeer = [] := by
    refine List.filter_eq_nil_iff.mpr ?_
    intro ev hev
    rcases start_loopAux_shape env _ _ ev hev with ⟨i, rfl⟩ | ⟨kk, rfl⟩ <;>
      simp [isAddPeer]
  have hP : (peer_loop env s N).filter isAddPeer = peer_loop env s N := by
    refine List.filter_eq_self.mpr ?_
    intro ev hev
    simp only [peer_loop, List.mem_map] at hev
    obtain ⟨i, _, rfl⟩ := hev
    simp [isAddPeer]
  constructor
  · simp only [hprov, List.filter_append, hA, hI, hS, hP]
    simp [isAddPeer, peer_loop]
  · refine ⟨⟨env.clock (start_loop env N (k0 + 1)).2.2, N, addrs,
      env.clock k0, (start_loop env N (k0 + 1)).2.1,
      env.clock ((start_loop env N (k0 + 1)).2.2 + 1)⟩,
      by simp only [hprov], rfl, ?_⟩
    simp only [hprov]
    exact List.mem_append_right _ (by simp)

/-- Witness environment for C6: three nodes, node 3's peer-add fails. -/
def envPeerMixed : Env :=
  { accountAddr := fun i => some [48, 120, 48 + i], initRet := fun _ => 0,
    startPid := fun i => [48 + i], nodeInfo := fun _ => RpcRes.found [101],
    addPeer := fun i => i == 2, clock := fun k => k }

/-- Witness for C6 at `N = 3`: node 2 peers, node 3 fails, both recorded. -/
theorem peering_best_effort_witness :
    (provision_cluster envPeerMixed 3 1515 0 0 1).1.filter isAddPeer
      = [Event.addPeerCall 8546 [101] true, Event.addPeerCall 8547 [101] false] :=
  (peering_best_effort envPeerMixed 3 1515 0 0 1 [101]
    (fun i _ => by simp [envPeerMixed]) (fun i _ => by simp [envPeerMixed])
    (by simp [envPeerMixed]) (by omega)).1

/-- Claim C8: record storage is append-only. If two consecutive successful
runs share the clock and tick stream (run 2 resumes run 1's counters), the
clock never goes backwards, and every 2-second start sleep advances the
clock by at least 2 (which `time.sleep(2)` guarantees), then with at least
one node the two cluster records have different timestamps, are different
records, and neither the genesis file nor the record file of run 2 reuses
(overwrites) a file name of run 1. -/
theorem records_append_only (env : Env) (N cid k0 r0 k1 r1 fuel fuel2 : Nat)
    (m1 m2 : Meta)
    (h1 : (provision_cluster env N cid k0 r0 fuel).2 = (k1, r1, RunRes.ok m1))
    (h2 : (provision_cluster env N cid k1 r1 fuel2).2.2.2 = RunRes.ok m2)
    (hN : 1 ≤ N)
    (hmono : ∀ a b, a ≤ b → env.clock a ≤ env.clock b)
    (hsleep : ∀ k, (Event.sleep2 k ∈ (provision_cluster env N cid k0 r0 fuel).1 ∨
        Event.sleep2 k ∈ (provision_cluster env N cid k1 r1 fuel2).1) →
      env.clock k + 2 ≤ env.clock (k + 1)) :
    m1.timestamp ≠ m2.timestamp ∧ m1 ≠ m2 ∧
    (∀ t g t' g',
      Event.genesisWritten t g ∈ (provision_cluster env N cid k0 r0 fuel).1 →
      Event.genesisWritten t' g' ∈ (provision_cluster env N cid k1 r1 fuel2).1 →
      t ≠ t') ∧
    (∀ t t', Event.metaWritten t ∈ (provision_cluster env N cid k0 r0 fuel).1 →
      Event.metaWritten t' ∈ (provision_cluster env N cid k1 r1 fuel2).1 →
      t ≠ t') := by
  have h1res : (provision_cluster env N cid k0 r0 fuel).2.2.2 = RunRes.ok m1 := by
    rw [h1]
  have h1k : (provision_cluster env N cid k0 r0 fuel).2.1 = k1 := by
    rw [h1]
  obtain ⟨kd1, hg1, ht1, hmt1, hk1', hkd1ge, hsl1, hguniq1, hmuniq1⟩ :=
    provision_ok_inversion env N cid k0 r0 fuel m1 h1res
  obtain ⟨kd2, hg2, ht2, hmt2, hk2', hkd2ge, hsl2, hguniq2, hmuniq2⟩ :=
    provision_ok_inversion env N cid k1 r1 fuel2 m2 h2
  have hk1eq : k1 = kd1 + 2 := by rw [← h1k, hk1']
  have hs1 : env.clock (k0 + 1) + 2 ≤ env.clock (k0 + 2) :=
    hsleep (k0 + 1) (Or.inl (hsl1 hN))
  have hs2 : env.clock (k1 + 1) + 2 ≤ env.clock (k1 + 2) :=
    hsleep (k1 + 1) (Or.inr (hsl2 hN))
  have ha1 : env.clock k0 ≤ env.clock (k0 + 1) := hmono _ _ (by omega)
  have ha2 : env.clock (k0 + 2) ≤ env.clock k1 := hmono _ _ (by omega)
  have hb1 : env.clock kd1 ≤ env.clock (k1 + 1) := hmono _ _ (by omega)
  have hb2 : env.clock (kd1 + 1) ≤ env.clock (k1 + 1) := hmono _ _ (by omega)
  have hb3 : env.clock (k1 + 2) ≤ env.clock kd2 := hmono _ _ (by omega)
  have hb4 : env.clock (k1 + 2) ≤ env.clock (kd2 + 1) := hmono _ _ (by omega)
  have htsne : m1.timestamp ≠ m2.timestamp := by
    rw [ht1, ht2]
    omega
  refine ⟨htsne, fun he => htsne (by rw [he]), ?_, ?_⟩
  · intro t g t' g' hmem1 hmem2
    rw [hguniq1 t g hmem1, hguniq2 t' g' hmem2]
    omega
  · intro t t' hmem1 hmem2
    rw [hmuniq1 t hmem1, hmuniq2 t' hmem2]
    omega

/-- Witness environment for C8: everything succeeds, clock reads `2 * tick`. -/
def envTwoRuns : Env :=
  { accountAddr := fun _ => some [48, 120, 97], initRet := fun _ => 0,
    startPid := fun _ => [49], nodeInfo := fun _ => RpcRes.found [101],
    addPeer := fun _ => true, clock := fun k => 2 * k }

/-- Witness for C8: two consecutive one-node runs get distinct timestamps. -/
theorem records_append_only_witness :
    (⟨4, 1, [[48, 120, 97]], 0, [[49]], 6⟩ : Meta).timestamp
      ≠ (⟨12, 1, [[48, 120, 97]], 8, [[49]], 14⟩ : Meta).timestamp :=
  (records_append_only envTwoRuns 1 1515 0 0 4 1 1 1
    ⟨4, 1, [[48, 120, 97]], 0, [[49]], 6⟩
    ⟨12, 1, [[48, 120, 97]], 8, [[49]], 14⟩
    (by decide) (by decide) (by decide)
    (fun a b h => by simp only [envTwoRuns]; omega)
    (fun k _ => by simp only [envTwoRuns]; omega)).1

/-- The identity phase returns exactly the oracle's addresses in order. -/
theorem init_nodesAux_map_eq (env : Env) :
    ∀ idxs addrs, (init_nodesAux env idxs).2 = some addrs →
      idxs.map env.accountAddr = addrs.map some := by
  intro idxs
  induction idxs with
  | nil =>
    intro addrs h
    simp only [init_nodesAux, Option.some.injEq] at h
    subst h
    rfl
  | cons i rest ih =>
    intro addrs h
    cases ha : env.accountAddr i with
    | none => simp [init_nodesAux, ha] at h
    | some a =>
      simp only [init_nodesAux, ha] at h
      rw [Option.map_eq_some'] at h
      obtain ⟨as, has, rfl⟩ := h
      simp only [List.map_cons, ha, ih as has]

/-- A single unparseable account aborts the identity phase. -/
theorem init_nodesAux_none (env : Env) :
    ∀ idxs, (∃ i ∈ idxs, env.accountAddr i = none) →
      (init_nodesAux env idxs).2 = none := by
  intro idxs
  induction idxs with
  | nil =>
    rintro ⟨i, hi, _⟩
    simp at hi
  | cons j rest ih =>
    rintro ⟨i, hi, hnone⟩
    cases ha : env.accountAddr j with
    | none => simp [init_nodesAux, ha]
    | some a =>
      simp only [List.mem_cons] at hi
      rcases hi with rfl | hi
      · rw [ha] at hnone
        exact Option.noConfusion hnone
      · simp [init_nodesAux, ha, ih ⟨i, hi, hnone⟩]

/-- Claim C3 (amended): identity provisioning performs no duplicate check.
It returns exactly the addresses the account-creation tool reports, in
order: the result is duplicate-free only when the tool's outputs for
distinct nodes differ, and the run aborts before writing any genesis only
in the case where some account creation yields no parseable address. -/
theorem init_nodes_no_dup_check (env : Env) (N cid k0 r0 fuel : Nat) :
    (∀ addrs, (init_nodes env N).2 = some addrs →
      addrs.length = N ∧
      (∀ i, i < N → addrs[i]? = env.accountAddr (i + 1)) ∧
      ((∀ i j, i < N → j < N → i ≠ j →
          env.accountAddr (i + 1) ≠ env.accountAddr (j + 1)) → addrs.Nodup)) ∧
    ((∃ i, i < N ∧ env.accountAddr (i + 1) = none) →
      (provision_cluster env N cid k0 r0 fuel).2.2.2 = RunRes.raised ∧
      ∀ t g, Event.genesisWritten t g ∉ (provision_cluster env N cid k0 r0 fuel).1) := by
  constructor
  · intro addrs h
    have hmap := init_nodesAux_map_eq env _ addrs h
    rw [List.map_map] at hmap
    have hlen : addrs.length = N := by
      have := congrArg List.length hmap
      simpa using this.symm
    refine ⟨hlen, ?_, ?_⟩
    · intro i hi
      have hgi := congrArg (fun l => l[i]?) hmap
      simp only [List.getElem?_map, List.getElem?_range, hi, if_pos,
        Option.map_some'] at hgi
      have hgi' := hgi.symm
      rw [Option.map_eq_some'] at hgi'
      obtain ⟨a, ha1, ha2⟩ := hgi'
      rw [ha1]
      exact ha2
    · intro hinj
      have hmapped : (addrs.map some).Nodup := by
        rw [← hmap]
        refine List.Nodup.map_on ?_ (List.nodup_range N)
        intro x hx y hy hxy
        by_contra hne
        exact hinj x y (List.mem_range.mp hx) (List.mem_range.mp hy) hne hxy
      exact List.Nodup.of_map some hmapped
  · rintro ⟨i, hiN, hnone⟩
    have hnone' : (init_nodes env N).2 = none :=
      init_nodesAux_none env _ ⟨i + 1, by
        simp only [List.mem_map, List.mem_range]
        exact ⟨i, hiN, rfl⟩, hnone⟩
    rcases h1 : init_nodes env N with ⟨evsA, oA⟩
    have hoA : oA = none := by
      rw [h1] at hnone'
      exact hnone'
    subst hoA
    have hprov : provision_cluster env N cid k0 r0 fuel
        = (evsA, k0, r0, RunRes.raised) := by
      simp only [provision_cluster, h1]
    rw [hprov]
    refine ⟨rfl, ?_⟩
    intro t g hmem
    obtain ⟨_, _, he⟩ := init_nodesAux_shape env _ _
      (by rw [show evsA = (init_nodes env N).1 by rw [h1]] at hmem; exact hmem)
    exact Event.noConfusion he

/-- Environment whose account tool reports the same address every time. -/
def envDupAddr : Env :=
  { accountAddr := fun _ => some [48, 120, 97, 98], initRet := fun _ => 0,
    startPid := fun _ => [49], nodeInfo := fun _ => RpcRes.found [101],
    addPeer := fun _ => true, clock := fun k => k }

set_option maxRecDepth 8000 in
/-- Counterexample to claim C3 as stated: when the account tool reports the
same address for nodes 1 and 2, identity provisioning returns the duplicate
pair, no fatal error is raised, and the run builds and writes the genesis
descriptor containing the duplicated authority. -/
theorem no_dup_abort_counterexample :
    (init_nodes envDupAddr 2).2 = some [[48, 120, 97, 98], [48, 120, 97, 98]] ∧
    ¬ ([[48, 120, 97, 98], [48, 120, 97, 98]] : List Str).Nodup ∧
    Event.genesisWritten 0
        (build_clique_genesis 1515 [[48, 120, 97, 98], [48, 120, 97, 98]])
      ∈ (provision_cluster envDupAddr 2 1515 0 0 1).1 ∧
    (provision_cluster envDupAddr 2 1515 0 0 1).2.2.2 ≠ RunRes.raised := by
  refine ⟨by decide, by decide, by decide, by decide⟩

/-- Environment whose account tool never reports an address. -/
def envNoAddr : Env :=
  { accountAddr := fun _ => none, initRet := fun _ => 0,
    startPid := fun _ => [49], nodeInfo := fun _ => RpcRes.found [101],
    addPeer := fun _ => true, clock := fun k => k }

/-- Witness for C3 (amended): an unparseable account aborts the run. -/
theorem init_nodes_no_dup_check_witness :
    (provision_cluster envNoAddr 1 1515 0 0 1).2.2.2 = RunRes.raised :=
  ((init_nodes_no_dup_check envNoAddr 1 1515 0 0 1).2 ⟨0, by omega, rfl⟩).1

/-- The first iteration of the discovery loop always issues a `node_info`
call, whatever the endpoint then does. -/
theorem get_enode_aux_head (env : Env) (fuel attempts port r k : Nat)
    (hfuel : 1 ≤ fuel) (ha : attempts < 10) :
    Event.nodeInfoCall port r ∈ (get_enode_aux env fuel attempts port r k).1 := by
  obtain ⟨f, rfl⟩ : ∃ f, fuel = f + 1 := ⟨fuel - 1, by omega⟩
  cases hr : env.nodeInfo r with
  | exn => simp [get_enode_aux, if_pos ha, hr]
  | noEnode => simp [get_enode_aux, if_pos ha, hr]
  | found s => simp [get_enode_aux, if_pos ha, hr]

set_option maxRecDepth 8000 in
/-- Claim C10: the provisioning entry point does not enforce `N ≥ 1`: with a
requested node count of 0 the identity phase succeeds with empty event and
address lists, the degenerate genesis `extraData` is `0x` followed by 194
zero hex digits (exactly `32 + 65` zero bytes, no authorities), and the run
still issues a bootstrap `node_info` call against node 1's RPC port
(`HTTP_BASE`) even though no node was created. -/
theorem zero_nodes_no_guard (env : Env) (cid k0 r0 fuel : Nat)
    (hfuel : 1 ≤ fuel) :
    (init_nodes env 0).1 = [] ∧ (init_nodes env 0).2 = some [] ∧
    (build_clique_genesis cid []).extraData
      = 48 :: 120 :: List.replicate 194 48 ∧
    decodeHexPairs (List.drop 2 (build_clique_genesis cid []).extraData)
      = some (List.replicate 97 0) ∧
    get_node_http_port 1 = HTTP_BASE ∧
    Event.nodeInfoCall (get_node_http_port 1) r0
      ∈ (provision_cluster env 0 cid k0 r0 fuel).1 := by
  obtain ⟨f, rfl⟩ : ∃ f, fuel = f + 1 := ⟨fuel - 1, by omega⟩
  have hextra : (build_clique_genesis cid []).extraData
      = 48 :: 120 :: (List.replicate 64 48 ++ [] ++ List.replicate 130 48) := rfl
  have hrep : (List.replicate 64 48 ++ [] ++ List.replicate 130 48 : List Nat)
      = List.replicate 194 48 := by decide
  refine ⟨rfl, rfl, by rw [hextra, hrep], by rw [hextra, hrep]; decide, rfl, ?_⟩
  have h1 : init_nodes env 0 = ([], some []) := rfl
  have h2 : init_loop env 0 = ([], true) := rfl
  have hhead : Event.nodeInfoCall (get_node_http_port 1) r0
      ∈ (get_enode_via_rpc env (f + 1) (get_node_http_port 1) r0
          (start_loop env 0 (k0 + 1)).2.2).1 :=
    get_enode_aux_head env (f + 1) 0 (get_node_http_port 1) r0 _
      (by omega) (by omega)
  rcases h3 : get_enode_via_rpc env (f + 1) (get_node_http_port 1) r0
      (start_loop env 0 (k0 + 1)).2.2 with ⟨evsD, res, r2, k2⟩
  rw [h3] at hhead
  cases res <;> simp only [provision_cluster, h1, h2, h3] <;>
    simp [List.mem_append, hhead, peer_loop]

/-- Environment for the C10 witness: the lone `node_info` call raises. -/
def envZeroRun : Env :=
  { accountAddr := fun _ => some [48, 120, 97], initRet := fun _ => 0,
    startPid := fun _ => [49], nodeInfo := fun _ => RpcRes.exn,
    addPeer := fun _ => true, clock := fun k => k }

/-- Witness for C10 with a concrete environment and fuel 1. -/
theorem zero_nodes_no_guard_witness :
    Event.nodeInfoCall (get_node_http_port 1) 0
      ∈ (provision_cluster envZeroRun 0 1515 0 0 1).1 :=
  (zero_nodes_no_guard envZeroRun 1515 0 0 1 (by omega)).2.2.2.2.2

/-- Claim C7: port assignment is deterministic and injective: for every node
index `i` in `1..N`, the p2p port is `P2P_BASE + (i-1)` and the http port is
`HTTP_BASE + (i-1)`, and over `N` nodes both port lists are duplicate-free
with exactly `N` elements. -/
theorem ports_deterministic_injective (N : Nat) :
    (∀ i, 1 ≤ i → i ≤ N →
      get_node_p2p_port i = 30303 + (i - 1) ∧
      get_node_http_port i = 8545 + (i - 1)) ∧
    ((List.range N).map (fun k => get_node_p2p_port (k + 1))).Nodup ∧
    ((List.range N).map (fun k => get_node_p2p_port (k + 1))).length = N ∧
    ((List.range N).map (fun k => get_node_http_port (k + 1))).Nodup ∧
    ((List.range N).map (fun k => get_node_http_port (k + 1))).length = N := by
  refine ⟨fun i _ _ => ⟨rfl, rfl⟩, ?_, ?_, ?_, ?_⟩
  · exact (List.nodup_range N).map (fun a b h => by
      simpa [get_node_p2p_port, P2P_BASE] using h)
  · simp
  · exact (List.nodup_range N).map (fun a b h => by
      simpa [get_node_http_port, HTTP_BASE] using h)
  · simp

/-- Witness for C7 at `N = 3`. -/
theorem ports_deterministic_injective_witness :
    ((List.range 3).map (fun k => get_node_http_port (k + 1))).Nodup :=
  (ports_deterministic_injective 3).2.2.2.1
